import Mathlib

/-!
Verification of the lwrpc library (lightweight remote procedure calls).

The development shallowly embeds the two cores of `src/lib/lwrpc.js`:

* the recursive structural validator `validate(value, type)` together with
  the JavaScript runtime primitives it relies on (`typeof` checks,
  `Object.keys`, `Object.values`, `hasOwnProperty`, property access); and
* the channel engine created by `createChannel` (publish / call / result /
  error / expect dispatch, the in-flight table, the expectation queue,
  the nonce counter and the close handler), modelled as an explicit state
  machine driven by events.

JavaScript values are modelled by the inductive type `JsValue`.  Operations
that can throw a `TypeError` at runtime (for example `Object.keys(null)`)
return `Option`, with `none` standing for the thrown exception.
-/

set_option maxHeartbeats 1000000

namespace Lwrpc

/-- A plain JavaScript value, as exchanged over an lwrpc channel: `null`,
`undefined`, booleans, numbers (the library only ever compares them with
integer tags, so integers suffice), strings, arrays and plain objects.
Type descriptors (`Sendable`) are ordinary values of this type, exactly as
in the JavaScript source. -/
inductive JsValue where
  | null
  | undefined
  | bool (b : Bool)
  | num (n : Int)
  | str (s : String)
  | arr (elems : List JsValue)
  | obj (fields : List (String × JsValue))

namespace JsValue

/-- Embeds `const isString = x => typeof x === 'string'`. -/
def isString : JsValue → Bool
  | .str _ => true
  | _ => false

/-- Embeds `const isNumber = x => typeof x === 'number'`. -/
def isNumber : JsValue → Bool
  | .num _ => true
  | _ => false

/-- Embeds `const isBool = x => typeof x === 'boolean'`. -/
def isBool : JsValue → Bool
  | .bool _ => true
  | _ => false

/-- Embeds `const isArray = Array.isArray`. -/
def isArray : JsValue → Bool
  | .arr _ => true
  | _ => false

/-- Embeds `const isObject = x => typeof x === 'object' && !isArray(x)`.
Note that in JavaScript `typeof null === 'object'`, so `null` passes this
check; this fact is the root of the validator totality bug. -/
def isObject : JsValue → Bool
  | .null => true
  | .obj _ => true
  | _ => false

end JsValue

/-- First-match association lookup; JavaScript objects have unique keys, so
on faithful inputs this is plain key lookup. -/
def alookup {β : Type} : List (String × β) → String → Option β
  | [], _ => none
  | p :: ps, k => if p.1 = k then some p.2 else alookup ps k

/-- Embeds `o.hasOwnProperty(k)` for a plain object with fields `fs`. -/
def jsHasKey (fs : List (String × JsValue)) (k : String) : Bool :=
  (alookup fs k).isSome

/-- Embeds JavaScript property access `o[k]` on a plain object: the stored
value, or `undefined` when the key is absent. -/
def getFieldD (fs : List (String × JsValue)) (k : String) : JsValue :=
  (alookup fs k).getD .undefined

/-- The decimal index strings `"0", …, "n-1"`; these are the own enumerable
property keys of an array or string of length `n`. -/
def idxOf (n : Nat) (k : String) : Option Nat :=
  (List.range n).find? (fun i => Nat.repr i == k)

/-- Embeds `v.hasOwnProperty(k)` for an arbitrary value: throws (`none`) on
`null` and `undefined`, is `false` on numbers and booleans, and checks index
keys and `length` on strings and arrays. -/
def jsHasOwn : JsValue → String → Option Bool
  | .null, _ => none
  | .undefined, _ => none
  | .num _, _ => some false
  | .bool _, _ => some false
  | .str s, k => some (k == "length" || (idxOf s.length k).isSome)
  | .arr vs, k => some (k == "length" || (idxOf vs.length k).isSome)
  | .obj fs, k => some (jsHasKey fs k)

/-- Embeds `Object.keys(v)`: throws (`none`) on `null` and `undefined`,
returns `[]` on numbers and booleans, the index strings on strings and
arrays, and the field names on plain objects. -/
def jsKeys : JsValue → Option (List String)
  | .null => none
  | .undefined => none
  | .num _ => some []
  | .bool _ => some []
  | .str s => some ((List.range s.length).map Nat.repr)
  | .arr vs => some ((List.range vs.length).map Nat.repr)
  | .obj fs => some (fs.map Prod.fst)

/-- Embeds `Object.values(v)`: throws (`none`) on `null` and `undefined`,
returns `[]` on numbers and booleans, the single-character strings on a
string, the elements on an array, and the field values on a plain object. -/
def jsValues : JsValue → Option (List JsValue)
  | .null => none
  | .undefined => none
  | .num _ => some []
  | .bool _ => some []
  | .str s => some (s.data.map (fun ch => .str (String.mk [ch])))
  | .arr vs => some vs
  | .obj fs => some (fs.map Prod.snd)

/-- Embeds general property access `v[k]` used by the fixed-object branch
of the validator (`vres[k]`). -/
def jsGet : JsValue → String → JsValue
  | .obj fs, k => getFieldD fs k
  | .arr vs, k =>
      if k == "length" then .num vs.length else
        match idxOf vs.length k with
        | some i => vs.getD i .undefined
        | none => .undefined
  | .str s, k =>
      if k == "length" then .num s.length else
        match idxOf s.length k with
        | some i => .str (String.mk [s.data.getD i 'a'])
        | none => .undefined
  | _, _ => .undefined

/-- Embeds `x === n` for an integer literal `n`, as used on the `$c`
discriminator of a descriptor. -/
def isNumEq : JsValue → Int → Bool
  | .num m, n => m == n
  | _, _ => false

/-- Short-circuiting `Array.prototype.every` over a predicate that may throw
(`none`): the first thrown or `false` element decides the result. -/
def optAll {α : Type} (l : List α) (f : α → Option Bool) : Option Bool :=
  match l with
  | [] => some true
  | x :: xs =>
    match f x with
    | none => none
    | some false => some false
    | some true => optAll xs f

/-- Short-circuiting `Array.prototype.some` over a predicate that may throw
(`none`): the first thrown or `true` element decides the result. -/
def optAny {α : Type} (l : List α) (f : α → Option Bool) : Option Bool :=
  match l with
  | [] => some false
  | x :: xs =>
    match f x with
    | none => none
    | some true => some true
    | some false => optAny xs f

/-- Termination measure for the validator: a size on `JsValue` under which
every value reachable from a descriptor by the validator recursion (field
values, array elements, union alternatives — including the single-character
strings produced by `Object.values` on a string) is smaller than the
enclosing object or array. -/
def tsize : JsValue → Nat
  | .arr vs => 1 + (vs.attach.map (fun v => tsize v.1)).sum
  | .obj fs => 1 + (fs.attach.map (fun p => 1 + tsize p.1.2)).sum
  | _ => 1
termination_by v => sizeOf v
decreasing_by
  · have h1 : sizeOf v.1 < sizeOf vs := List.sizeOf_lt_of_mem v.2
    simp only [JsValue.arr.sizeOf_spec]
    omega
  · have h1 : sizeOf p.1 < sizeOf fs := List.sizeOf_lt_of_mem p.2
    have h2 : sizeOf p.1.2 < sizeOf p.1 := by
      cases hp : p.1 with
      | mk a b => simp [hp]
    simp only [JsValue.obj.sizeOf_spec]
    omega

theorem tsize_pos (v : JsValue) : 1 ≤ tsize v := by
  cases v <;> simp [tsize]

theorem tsize_mem_arr {t : JsValue} {ts : List JsValue} (h : t ∈ ts) :
    tsize t < tsize (.arr ts) := by
  rw [tsize]
  have hmem : tsize t ∈ ts.attach.map (fun v => tsize v.1) :=
    List.mem_map.mpr ⟨⟨t, h⟩, List.mem_attach _ _, rfl⟩
  have hle := List.single_le_sum (fun x _ => Nat.zero_le x) _ hmem
  omega

theorem tsize_snd_lt_obj {p : String × JsValue} {fs : List (String × JsValue)}
    (h : p ∈ fs) : tsize p.2 < tsize (.obj fs) := by
  rw [tsize]
  have hmem : 1 + tsize p.2 ∈ fs.attach.map (fun q => 1 + tsize q.1.2) :=
    List.mem_map.mpr ⟨⟨p, h⟩, List.mem_attach _ _, rfl⟩
  have hle := List.single_le_sum (fun x _ => Nat.zero_le x) _ hmem
  omega

theorem alookup_mem {β : Type} {fs : List (String × β)} {k : String} {v : β}
    (h : alookup fs k = some v) : (k, v) ∈ fs := by
  induction fs with
  | nil => simp [alookup] at h
  | cons p ps ih =>
    obtain ⟨a, b⟩ := p
    rw [alookup] at h
    by_cases hk : a = k
    · subst hk
      rw [if_pos rfl] at h
      injection h with h
      subst h
      exact List.mem_cons_self _ _
    · simp only [if_neg hk] at h
      exact List.mem_cons_of_mem _ (ih h)

theorem tsize_obj_ge {fs : List (String × JsValue)} (h : fs ≠ []) :
    3 ≤ tsize (JsValue.obj fs) := by
  rw [tsize]
  cases fs with
  | nil => exact absurd rfl h
  | cons p ps =>
    have hmem : 1 + tsize p.2 ∈ ((p :: ps).attach.map (fun q => 1 + tsize q.1.2)) :=
      List.mem_map.mpr ⟨⟨p, by simp⟩, List.mem_attach _ _, rfl⟩
    have hle := List.single_le_sum (fun x _ => Nat.zero_le x) _ hmem
    have := tsize_pos p.2
    omega

theorem tsize_getFieldD_lt {fs : List (String × JsValue)} (k : String)
    (h : fs ≠ []) : tsize (getFieldD fs k) < tsize (.obj fs) := by
  rw [getFieldD]
  cases hl : alookup fs k with
  | none =>
    have h3 := tsize_obj_ge h
    have h4 : tsize (Option.getD none JsValue.undefined) = 1 := by simp [tsize]
    rw [h4]
    omega
  | some v =>
    simp only [Option.getD]
    exact tsize_snd_lt_obj (alookup_mem hl)

theorem jsHasKey_ne_nil {fs : List (String × JsValue)} {k : String}
    (h : jsHasKey fs k = true) : fs ≠ [] := by
  intro hnil
  subst hnil
  simp [jsHasKey, alookup] at h

theorem tsize_jsValues_le {w t : JsValue} {l : List JsValue}
    (hw : jsValues w = some l) (ht : t ∈ l) : tsize t ≤ tsize w := by
  cases w with
  | null => simp [jsValues] at hw
  | undefined => simp [jsValues] at hw
  | num n =>
    simp only [jsValues, Option.some.injEq] at hw
    subst hw
    simp at ht
  | bool b =>
    simp only [jsValues, Option.some.injEq] at hw
    subst hw
    simp at ht
  | str s =>
    simp only [jsValues, Option.some.injEq] at hw
    subst hw
    obtain ⟨ch, _, hch⟩ := List.mem_map.mp ht
    rw [← hch]
    simp [tsize]
  | arr vs =>
    simp only [jsValues, Option.some.injEq] at hw
    subst hw
    exact Nat.le_of_lt (tsize_mem_arr ht)
  | obj fs =>
    simp only [jsValues, Option.some.injEq] at hw
    subst hw
    obtain ⟨p, hmem, hsnd⟩ := List.mem_map.mp ht
    rw [← hsnd]
    exact Nat.le_of_lt (tsize_snd_lt_obj hmem)

theorem jsHasKey_lookup {fs : List (String × JsValue)} {k : String}
    (h : jsHasKey fs k = true) : ∃ v, alookup fs k = some v := by
  rw [jsHasKey] at h
  cases hl : alookup fs k with
  | none => rw [hl] at h; simp [Option.isSome] at h
  | some v => exact ⟨v, rfl⟩

/-- The structural validator, a faithful embedding of `validate(value, type)`
from `src/lib/lwrpc.js`.  The result is `none` when the JavaScript function
would throw a `TypeError` (this happens through `isObject` accepting `null`,
and through `Object.keys` / `Object.values` / `hasOwnProperty` on `null` or
`undefined`), and `some b` when it returns the boolean `b`. -/
def validate (value type : JsValue) : Option Bool :=
  match type with
  | .num n =>
    -- isNumber(type): basic type switch
    if n = 0 then some (match value with | .null => true | _ => false)
    else if n = 1 then some (value.isString)
    else if n = 2 then some (value.isNumber)
    else if n = 3 then some (value.isBool)
    else some false
  | .str _ => some false
  | .bool _ => some false
  | .undefined => some false
  | .null =>
    -- typeof null === 'object', so isObject(type) holds and the code
    -- evaluates type.hasOwnProperty('$c'), which throws a TypeError
    none
  | .arr ts =>
    -- isArray(type): fixed structure array
    match value with
    | .arr vs =>
      if ts.length = vs.length then
        optAll (vs.zip ts).attach (fun p => validate p.1.1 p.1.2)
      else some false
    | _ => some false
  | .obj tf =>
    if hc : jsHasKey tf "$c" then
      if value.isArray && isNumEq (getFieldD tf "$c") 4 then
        -- variable structure array
        match value with
        | .arr vs => optAll vs.attach (fun v => validate v.1 (getFieldD tf "$v"))
        | _ => some false
      else if isNumEq (getFieldD tf "$c") 5 && value.isObject then
        -- variable structure object; isObject also accepts null, on which
        -- Object.keys throws
        match value with
        | .obj vf =>
          match optAll (vf.map Prod.fst)
              (fun k => validate (.str k) (getFieldD tf "$k")) with
          | none => none
          | some false => some false
          | some true =>
            optAll vf.attach (fun p => validate p.1.2 (getFieldD tf "$v"))
        | _ => none
      else if isNumEq (getFieldD tf "$c") 6 then
        -- typed union: Object.values(type.$t).some(t => validate(value, t))
        match hv : jsValues (getFieldD tf "$t") with
        | none => none
        | some alts => optAny alts.attach (fun t => validate value t.1)
      else some false
    else
      -- fixed structure object: three short-circuited everys
      match optAll (tf.map Prod.fst) (fun k => jsHasOwn value k) with
      | none => none
      | some false => some false
      | some true =>
        match jsKeys value with
        | none => none
        | some vkeys =>
          if hall : vkeys.all (fun k => jsHasKey tf k) then
            optAll vkeys.attach
              (fun k => validate (jsGet value k.1) (getFieldD tf k.1))
          else some false
termination_by tsize type
decreasing_by
  · exact tsize_mem_arr (List.of_mem_zip p.2).2
  · exact tsize_getFieldD_lt "$v" (jsHasKey_ne_nil hc)
  · exact tsize_getFieldD_lt "$k" (jsHasKey_ne_nil hc)
  · exact tsize_getFieldD_lt "$v" (jsHasKey_ne_nil hc)
  · exact Nat.lt_of_le_of_lt (tsize_jsValues_le hv t.2)
      (tsize_getFieldD_lt "$t" (jsHasKey_ne_nil hc))
  · have hk := List.all_eq_true.mp hall k.1 k.2
    obtain ⟨v, hv⟩ := jsHasKey_lookup hk
    rw [getFieldD, hv]
    exact tsize_snd_lt_obj (alookup_mem hv)

theorem optAll_map {α β : Type} (l : List α) (g : α → β) (f : β → Option Bool) :
    optAll (l.map g) f = optAll l (fun x => f (g x)) := by
  induction l with
  | nil => rfl
  | cons x xs ih =>
    simp only [List.map_cons]
    rw [optAll, optAll]
    cases f (g x) with
    | none => rfl
    | some b => cases b <;> simp [ih]

theorem optAll_attach {α : Type} (l : List α) (f : α → Option Bool) :
    optAll l.attach (fun x => f x.1) = optAll l f := by
  induction l with
  | nil => rfl
  | cons x xs ih =>
    rw [List.attach_cons, optAll, optAll]
    cases f x with
    | none => rfl
    | some b =>
      cases b
      · rfl
      · simp only []
        rw [optAll_map]
        exact ih

theorem optAll_eq_true_iff {α : Type} (l : List α) (f : α → Option Bool) :
    optAll l f = some true ↔ ∀ x ∈ l, f x = some true := by
  induction l with
  | nil => simp [optAll]
  | cons x xs ih =>
    rw [optAll]
    cases hx : f x with
    | none => simp [hx]
    | some b =>
      cases b
      · simp only []
        constructor
        · intro h; exact absurd h (by simp)
        · intro h
          have := h x (List.mem_cons_self _ _)
          rw [hx] at this
          exact absurd this (by simp)
      · simp only [ih]
        constructor
        · intro h y hy
          rcases List.mem_cons.mp hy with h1 | h1
          · subst h1; exact hx
          · exact h y h1
        · intro h y hy
          exact h y (List.mem_cons_of_mem _ hy)

theorem optAll_of_forall_some {α : Type} (l : List α) (f : α → Option Bool)
    (g : α → Bool) (h : ∀ x ∈ l, f x = some (g x)) :
    optAll l f = some (l.all g) := by
  induction l with
  | nil => simp [optAll]
  | cons x xs ih =>
    rw [optAll, h x (List.mem_cons_self _ _)]
    cases hg : g x
    · simp [List.all_cons, hg]
    · simp only [List.all_cons, hg, Bool.true_and]
      exact ih (fun y hy => h y (List.mem_cons_of_mem _ hy))

theorem jsHasKey_iff_mem {fs : List (String × JsValue)} {k : String} :
    jsHasKey fs k = true ↔ k ∈ fs.map Prod.fst := by
  induction fs with
  | nil => simp [jsHasKey, alookup]
  | cons p ps ih =>
    rw [jsHasKey, alookup]
    by_cases hk : p.1 = k
    · simp [hk]
    · rw [if_neg hk]
      rw [jsHasKey] at ih
      simp [ih, Ne.symm hk]

theorem alookup_of_mem_nodup {β : Type} {fs : List (String × β)} {k : String}
    {v : β} (hnd : (fs.map Prod.fst).Nodup) (h : (k, v) ∈ fs) :
    alookup fs k = some v := by
  induction fs with
  | nil => simp at h
  | cons p ps ih =>
    simp only [List.map_cons, List.nodup_cons] at hnd
    rcases List.mem_cons.mp h with h1 | h1
    · rw [← h1, alookup, if_pos rfl]
    · rw [alookup]
      have hk : p.1 ≠ k := by
        intro he
        exact hnd.1 (he ▸ List.mem_map.mpr ⟨(k, v), h1, rfl⟩)
      rw [if_neg hk]
      exact ih hnd.2 h1

/-! ## The channel engine

`createChannel` in `src/lib/lwrpc.js` closes over mutable state (`open`,
`counter`, `remoteFunctions`, `inFlight`, `published`, `expected`) and wires
up four entry points: the `publish` function, the proxy `get` trap for
remote calls, the receive handler and the close handler.  The model below
represents that state explicitly and drives it by events.  Deferred results
(promises handed to callers) are identified by their nonce; settling one is
recorded in the `settled` log.  Suspended callers waiting in the expectation
queue are `Waiter` records identified by `wid`; resolving their promise is
recorded in the `releases` log, and the continuation that runs afterwards
(sending `expect` and performing the actual call) is a separate `resume`
event, mirroring the microtask that runs after `resolve()`.  A local
implementation started by an inbound `call` is a task `(nonce, outcome)`;
the `finish` event models its `await fn(...)` completing.  A synchronous
`throw` into the calling context is recorded in the `thrown` log. -/

/-- A wire message, as in the `Message` union of the TypeScript source. -/
inductive Message where
  | publish (name : String) (args : List JsValue) (returns : JsValue)
  | call (nonce : Nat) (name : String) (args : List JsValue)
  | result (nonce : Nat) (value : JsValue)
  | error (nonce : Nat) (message : String)
  | expect (name : String)

/-- The result of running a local implementation: a resolved value or a
thrown exception (carrying the text the engine will stringify). -/
inductive ExecResult where
  | ok (v : JsValue)
  | exn (msg : String)

/-- How a deferred result was settled: `resolve(value)` or `fail(message)`. -/
inductive Outcome where
  | resolved (v : JsValue)
  | failed (msg : String)

/-- A local function definition as passed to `publish`:
`{name, args, returns, fn}`. The implementation is modelled as a pure
function from the argument list to its eventual outcome. -/
structure Lfd where
  name : String
  args : List JsValue
  returns : JsValue
  fn : List JsValue → ExecResult

/-- An entry of `remoteFunctions`: the wrapper created when a `publish`
message arrives (it retains only `name` and `returns`), or the inert no-op
that replaces it when the channel closes. -/
inductive RemoteHandle where
  | active (returns : JsValue)
  | inert

/-- An entry of the `inFlight` table (the `resolve` and `fail` callbacks are
identified by the entry's nonce). -/
structure InFlightRec where
  name : String
  returns : JsValue

/-- A caller suspended in the expectation queue: the call to `name` with
`args` waits for `resolve()`; `released` records that `resolve()` ran. -/
structure Waiter where
  wid : Nat
  name : String
  args : List JsValue
  released : Bool

/-- The mutable captures of `createChannel`. -/
structure EngineState where
  opn : Bool
  counter : Nat
  remoteFunctions : List (String × RemoteHandle)
  inFlight : List (Nat × InFlightRec)
  published : List (String × Lfd)
  expected : List (String × List Nat)

/-- One engine plus the observable logs of an execution. -/
structure Config where
  engine : EngineState
  sent : List Message
  settled : List (Nat × Outcome)
  waiters : List Waiter
  releases : List Nat
  tasks : List (Nat × ExecResult)
  nextWid : Nat
  thrown : List String

/-- Key-presence test (`name in table` / `hasOwnProperty`) for the engine
tables. -/
def hasKeyS {β : Type} (l : List (String × β)) (k : String) : Bool :=
  (alookup l k).isSome

/-- Removes the entry with the given key (`delete table[k]`). -/
def aremove {β : Type} (l : List (Nat × β)) (k : Nat) : List (Nat × β) :=
  l.filter (fun p => p.1 != k)

/-- First-match lookup in a Nat-keyed table. -/
def nlookup {β : Type} : List (Nat × β) → Nat → Option β
  | [], _ => none
  | p :: ps, k => if p.1 = k then some p.2 else nlookup ps k

/-- Embeds `sendFunction(lfd)`: the `publish` wire message it emits. -/
def sendFunctionMsg (lfd : Lfd) : Message :=
  .publish lfd.name lfd.args lfd.returns

/-- Embeds `publishFunction(lfd)`: throws synchronously when the name is
already published (leaving all state and the wire untouched), otherwise
records the definition and emits the `publish` message. -/
def publishFunction (c : Config) (lfd : Lfd) : Config :=
  if hasKeyS c.engine.published lfd.name then
    { c with thrown := c.thrown ++
        ["channel already has a published function called " ++ lfd.name] }
  else
    { c with
        engine := { c.engine with
          published := c.engine.published ++ [(lfd.name, lfd)] },
        sent := c.sent ++ [sendFunctionMsg lfd] }

/-- Embeds invoking `remoteFunctions[name](...args)`: an active wrapper
draws `nonce = counter++`, sends the `call` message and creates the
in-flight record; the post-close inert wrapper only logs and does nothing. -/
def invokeHandle (c : Config) (name : String) (args : List JsValue) : Config :=
  match alookup c.engine.remoteFunctions name with
  | some (.active returns) =>
    let nonce := c.engine.counter
    { c with
        engine := { c.engine with
          counter := nonce + 1,
          inFlight := c.engine.inFlight ++ [(nonce, ⟨name, returns⟩)] },
        sent := c.sent ++ [.call nonce name args] }
  | some .inert => c
  | none => c

/-- Embeds the proxy `get` trap followed by invoking the returned function
(for a name other than `publish`).  When no remote handle exists, the caller
is queued in the expectation table and suspends; note that nothing is sent
at this point — the `expect` message is only emitted by the continuation
that runs after the waiter is resumed. -/
def proxyCall (c : Config) (name : String) (args : List JsValue) : Config :=
  if hasKeyS c.engine.remoteFunctions name then invokeHandle c name args
  else
    { c with
        engine := { c.engine with expected :=
          (if hasKeyS c.engine.expected name then
            c.engine.expected.map
              (fun p => if p.1 = name then (p.1, p.2 ++ [c.nextWid]) else p)
          else c.engine.expected ++ [(name, [c.nextWid])]) },
        waiters := c.waiters ++ [⟨c.nextWid, name, args, false⟩],
        nextWid := c.nextWid + 1 }

/-- Embeds the continuation of a suspended caller after its `resolve()` ran:
`send({type:'expect', name})` followed by `remoteFunctions[name](...args)`. -/
def resumeWaiter (c : Config) (wid : Nat) : Config :=
  match c.waiters.find? (fun w => w.wid == wid && w.released) with
  | some w =>
    invokeHandle
      { c with
          waiters := c.waiters.filter (fun w2 => w2.wid != wid),
          sent := c.sent ++ [.expect w.name] }
      w.name w.args
  | none => c

/-- Embeds the receive handler registered with `registerReceive`. -/
def dispatch (c : Config) (m : Message) : Config :=
  match m with
  | .call nonce name args =>
    match alookup c.engine.published name with
    | none =>
      { c with sent := c.sent ++
          [.error nonce ("Unpublished Function: " ++ name)] }
    | some lfd =>
      match validate (.arr args) (.arr lfd.args) with
      | some true => { c with tasks := c.tasks ++ [(nonce, lfd.fn args)] }
      | some false =>
        { c with sent := c.sent ++ [.error nonce "Invalid Arguments"] }
      | none =>
        -- validate itself threw; the surrounding try/catch turns the
        -- TypeError into an Exception reply
        { c with sent := c.sent ++ [.error nonce "Exception: TypeError"] }
  | .publish name _args returns =>
    if hasKeyS c.engine.remoteFunctions name then c
    else
      match alookup c.engine.expected name with
      | some q =>
        -- expected[name].map(resolve => resolve()); the entry is NOT
        -- removed from the expectation table
        { c with
            engine := { c.engine with
              remoteFunctions :=
                c.engine.remoteFunctions ++ [(name, .active returns)] },
            waiters := c.waiters.map
              (fun w => if w.wid ∈ q then { w with released := true } else w),
            releases := c.releases ++ q }
      | none =>
        { c with
            engine := { c.engine with
              remoteFunctions :=
                c.engine.remoteFunctions ++ [(name, .active returns)] } }
  | .expect name =>
    match alookup c.engine.published name with
    | some lfd => { c with sent := c.sent ++ [sendFunctionMsg lfd] }
    | none => c
  | .error nonce msg =>
    match nlookup c.engine.inFlight nonce with
    | some _ =>
      { c with
          settled := c.settled ++ [(nonce, .failed msg)],
          engine := { c.engine with
            inFlight := aremove c.engine.inFlight nonce } }
    | none => c
  | .result nonce value =>
    match nlookup c.engine.inFlight nonce with
    | some rpc =>
      match validate value rpc.returns with
      | none =>
        -- validate threw: the async receive handler rejects before
        -- fail/resolve/delete run, so the record stays and nothing settles
        c
      | some false =>
        { c with
            settled := c.settled ++
              [(nonce, .failed ("invalid return value from rpc " ++ rpc.name))],
            engine := { c.engine with
              inFlight := aremove c.engine.inFlight nonce } }
      | some true =>
        { c with
            settled := c.settled ++ [(nonce, .resolved value)],
            engine := { c.engine with
              inFlight := aremove c.engine.inFlight nonce } }
    | none => c

/-- Embeds the close handler registered with `registerClose`: clears `open`,
fails every in-flight call with "Connection Closed" and empties the table,
and replaces every remote wrapper with the inert no-op. -/
def closeChannel (c : Config) : Config :=
  { c with
      engine := { c.engine with
        opn := false,
        inFlight := [],
        remoteFunctions :=
          c.engine.remoteFunctions.map (fun p => (p.1, RemoteHandle.inert)) },
      settled := c.settled ++
        c.engine.inFlight.map (fun p => (p.1, Outcome.failed "Connection Closed")) }

/-- Embeds `await fn(...args)` completing inside the call dispatch: an
undefined result is normalized to null and sent as `result` only while the
channel is open; a thrown exception is reported as an `error` reply
unconditionally (the open check guards only the `result` branch). -/
def finishTask (c : Config) (nonce : Nat) : Config :=
  match nlookup c.tasks nonce with
  | none => c
  | some res =>
    match res with
    | .ok v =>
      if c.engine.opn then
        { c with
            tasks := aremove c.tasks nonce,
            sent := c.sent ++
              [.result nonce (match v with | .undefined => .null | _ => v)] }
      else { c with tasks := aremove c.tasks nonce }
    | .exn e =>
      { c with
          tasks := aremove c.tasks nonce,
          sent := c.sent ++ [.error nonce ("Exception: " ++ e)] }

/-- The externally triggered events that drive one channel engine. -/
inductive Event where
  | pubLocal (lfd : Lfd)
  | callFn (name : String) (args : List JsValue)
  | resume (wid : Nat)
  | recv (m : Message)
  | closeEvt
  | finish (nonce : Nat)

def applyEvent (c : Config) : Event → Config
  | .pubLocal lfd => publishFunction c lfd
  | .callFn name args => proxyCall c name args
  | .resume wid => resumeWaiter c wid
  | .recv m => dispatch c m
  | .closeEvt => closeChannel c
  | .finish nonce => finishTask c nonce

/-- The state of a channel right after `createChannel` returns (with no
initial `publish` list): open, counter at 1, every table empty. -/
def initConfig : Config :=
  ⟨⟨true, 1, [], [], [], []⟩, [], [], [], [], [], 0, []⟩

/-- Runs a channel engine over a sequence of events. -/
def run (evs : List Event) : Config :=
  evs.foldl applyEvent initConfig

/-- The nonces of the `call` messages this side has emitted, in order. -/
def callNonces (ms : List Message) : List Nat :=
  ms.filterMap (fun m => match m with | .call n _ _ => some n | _ => none)

theorem callNonces_append (a b : List Message) :
    callNonces (a ++ b) = callNonces a ++ callNonces b :=
  List.filterMap_append a b _

theorem nlookup_aremove_self {β : Type} (l : List (Nat × β)) (n : Nat) :
    nlookup (aremove l n) n = none := by
  induction l with
  | nil => rfl
  | cons p ps ih =>
    by_cases hp : p.1 = n
    · simpa [aremove, List.filter_cons, hp] using ih
    · simp only [aremove, List.filter_cons] at ih ⊢
      rw [if_pos (show (p.1 != n) = true by simp [hp])]
      rw [nlookup, if_neg hp]
      exact ih

theorem nlookup_aremove_ne {β : Type} (l : List (Nat × β)) (n m : Nat)
    (h : m ≠ n) : nlookup (aremove l n) m = nlookup l m := by
  induction l with
  | nil => rfl
  | cons p ps ih =>
    by_cases hp : p.1 = n
    · have hpm : p.1 ≠ m := by rw [hp]; exact fun he => h he.symm
      simp only [aremove, List.filter_cons, hp] at ih ⊢
      simp only [bne_self_eq_false, if_false, Bool.false_eq_true]
      rw [nlookup, if_neg hpm]
      exact ih
    · simp only [aremove, List.filter_cons] at ih ⊢
      rw [if_pos (show (p.1 != n) = true by simp [hp])]
      rw [nlookup, nlookup]
      by_cases hpm : p.1 = m
      · rw [if_pos hpm, if_pos hpm]
      · rw [if_neg hpm, if_neg hpm]
        exact ih

theorem alookup_append_of_none {β : Type} {a : List (String × β)}
    (b : List (String × β)) {k : String} (h : alookup a k = none) :
    alookup (a ++ b) k = alookup b k := by
  induction a with
  | nil => rfl
  | cons p ps ih =>
    rw [alookup] at h
    by_cases hp : p.1 = k
    · rw [if_pos hp] at h; exact absurd h (by simp)
    · rw [if_neg hp] at h
      rw [List.cons_append, alookup, if_neg hp]
      exact ih h

theorem alookup_map_update {β : Type} (l : List (String × β)) (k : String)
    (f : β → β) :
    alookup (l.map (fun p => if p.1 = k then (p.1, f p.2) else p)) k
      = (alookup l k).map f := by
  induction l with
  | nil => rfl
  | cons p ps ih =>
    rw [List.map_cons]
    by_cases hp : p.1 = k
    · rw [if_pos hp, alookup, alookup, if_pos hp, if_pos hp]
      rfl
    · rw [if_neg hp, alookup, alookup, if_neg hp, if_neg hp]
      exact ih

/-- The nonce-counter invariant: the counter is at least 1 and the call
messages emitted so far carry exactly the nonces `1, …, counter - 1`
in order. -/
def Inv (c : Config) : Prop :=
  1 ≤ c.engine.counter
    ∧ callNonces c.sent = List.range' 1 (c.engine.counter - 1)

theorem inv_invokeHandle {c : Config} (h : Inv c) (name : String)
    (args : List JsValue) : Inv (invokeHandle c name args) := by
  obtain ⟨h1, h2⟩ := h
  rw [invokeHandle]
  cases hl : alookup c.engine.remoteFunctions name with
  | none => exact ⟨h1, h2⟩
  | some hd =>
    cases hd with
    | inert => exact ⟨h1, h2⟩
    | active returns =>
      refine ⟨show 1 ≤ c.engine.counter + 1 by omega, ?_⟩
      simp only [callNonces_append, h2]
      have h3 : callNonces [Message.call c.engine.counter name args]
          = [c.engine.counter] := rfl
      rw [h3]
      have h4 : c.engine.counter = (c.engine.counter - 1) + 1 := by omega
      have h5 := @List.range'_concat 1 1 (c.engine.counter - 1)
      simp only [Nat.one_mul] at h5
      have h6 : 1 + (c.engine.counter - 1) = c.engine.counter := by omega
      rw [h6] at h5
      rw [show c.engine.counter + 1 - 1 = (c.engine.counter - 1) + 1 by omega]
      rw [h5]

theorem inv_sent_eq {c c' : Config} (h : Inv c)
    (hs : callNonces c'.sent = callNonces c.sent)
    (hc : c'.engine.counter = c.engine.counter) : Inv c' := by
  obtain ⟨h1, h2⟩ := h
  exact ⟨hc ▸ h1, by rw [hs, hc]; exact h2⟩

theorem inv_applyEvent {c : Config} (h : Inv c) (e : Event) :
    Inv (applyEvent c e) := by
  cases e with
  | pubLocal lfd =>
    rw [applyEvent, publishFunction]
    by_cases hp : hasKeyS c.engine.published lfd.name
    · rw [if_pos hp]
      exact inv_sent_eq h rfl rfl
    · rw [if_neg hp]
      exact inv_sent_eq h (by simp [callNonces_append, callNonces, sendFunctionMsg]) rfl
  | callFn name args =>
    rw [applyEvent, proxyCall]
    by_cases hp : hasKeyS c.engine.remoteFunctions name
    · rw [if_pos hp]
      exact inv_invokeHandle h name args
    · rw [if_neg hp]
      exact inv_sent_eq h rfl rfl
  | resume wid =>
    rw [applyEvent, resumeWaiter]
    cases hf : c.waiters.find? (fun w => w.wid == wid && w.released) with
    | none => exact h
    | some w =>
      refine inv_invokeHandle ?_ w.name w.args
      exact inv_sent_eq h (by simp [callNonces_append, callNonces]) rfl
  | closeEvt =>
    rw [applyEvent, closeChannel]
    exact inv_sent_eq h rfl rfl
  | finish nonce =>
    rw [applyEvent, finishTask]
    cases hl : nlookup c.tasks nonce with
    | none => exact h
    | some res =>
      cases res with
      | ok v =>
        by_cases ho : c.engine.opn
        · exact inv_sent_eq h (by simp [ho, callNonces_append, callNonces]) (by simp [ho])
        · exact inv_sent_eq h (by simp [ho]) (by simp [ho])
      | exn msg =>
        exact inv_sent_eq h (by simp [callNonces_append, callNonces]) rfl
  | recv m =>
    rw [applyEvent]
    cases m with
    | call nonce name args =>
      rw [dispatch]
      split
      all_goals try split
      all_goals
        first
          | exact inv_sent_eq h rfl rfl
          | exact inv_sent_eq h (by simp [callNonces_append, callNonces]) rfl
    | publish name args returns =>
      rw [dispatch]
      split
      all_goals try split
      all_goals
        first
          | exact h
          | exact inv_sent_eq h rfl rfl
    | expect name =>
      rw [dispatch]
      split
      all_goals
        first
          | exact h
          | exact inv_sent_eq h
              (by simp [callNonces_append, callNonces, sendFunctionMsg]) rfl
    | error nonce msg =>
      rw [dispatch]
      split
      all_goals
        first
          | exact h
          | exact inv_sent_eq h rfl rfl
    | result nonce value =>
      rw [dispatch]
      split
      all_goals try split
      all_goals
        first
          | exact h
          | exact inv_sent_eq h rfl rfl

theorem inv_run (evs : List Event) : Inv (run evs) := by
  rw [run]
  have h0 : Inv initConfig := ⟨le_refl 1, rfl⟩
  suffices hs : ∀ c, Inv c → Inv (List.foldl applyEvent c evs) from hs _ h0
  induction evs with
  | nil => intro c hc; exact hc
  | cons e es ih =>
    intro c hc
    exact ih _ (inv_applyEvent hc e)

/-! ## The claims -/

/-- C3: the spec states that `validate(value, descriptor)` is total — it
returns a boolean and never throws, for every value (including the null
marker) and every descriptor, returning `false` on any malformed or
unrecognized descriptor shape.  The code violates this: since
`typeof null === 'object'`, `isObject(null)` holds, so validating the null
marker against a VariableObject descriptor reaches `Object.keys(null)` and
throws a TypeError, and validating any value against the descriptor `null`
reaches `null.hasOwnProperty('$c')` and throws.  `none` is the model of the
thrown exception. -/
theorem C3_validate_throws :
    validate JsValue.null
        (.obj [("$c", .num 5), ("$k", .num 1), ("$v", .num 2)]) = none
    ∧ validate (.num 1) JsValue.null = none := by
  constructor
  · simp [validate, jsHasKey, alookup, getFieldD, isNumEq,
      JsValue.isArray, JsValue.isObject]
  · simp [validate]

/-- C10: a VariableObject descriptor whose key kind is Number rejects every
associative value containing at least one key, because the keys presented
to the key check are runtime strings and a string never validates against
the Number descriptor; the empty mapping is the only accepted one. -/
theorem C10_number_keyed_variable_object
    (vf : List (String × JsValue)) (vt : JsValue) :
    (vf ≠ [] → validate (.obj vf)
        (.obj [("$c", .num 5), ("$k", .num 2), ("$v", vt)]) = some false)
    ∧ validate (.obj [])
        (.obj [("$c", .num 5), ("$k", .num 2), ("$v", vt)]) = some true := by
  constructor
  · intro hne
    obtain ⟨p, ps, rfl⟩ := List.exists_cons_of_ne_nil hne
    have hkey : validate (.str p.1) (.num 2) = some false := by
      simp [validate, JsValue.isNumber]
    simp [validate, jsHasKey, alookup, getFieldD, isNumEq,
      JsValue.isArray, JsValue.isObject, optAll, hkey]
  · simp [validate, jsHasKey, alookup, getFieldD, isNumEq,
      JsValue.isArray, JsValue.isObject, optAll, List.attach]

/-- Witness for C10 at a concrete one-field object. -/
theorem C10_witness :
    ([("a", JsValue.null)] : List (String × JsValue)) ≠ []
    ∧ validate (.obj [("a", JsValue.null)])
        (.obj [("$c", .num 5), ("$k", .num 2), ("$v", .num 0)]) = some false :=
  ⟨by simp,
    (C10_number_keyed_variable_object [("a", JsValue.null)] (.num 0)).1 (by simp)⟩

/-- C8 counterexample: the claim says `validate(V, F)` for a FixedObject
descriptor `F` returns true only when `V` is an associative structure.  The
code never checks the kind of `V` in the fixed-object branch: the number
`5` validates against the empty FixedObject descriptor, and the array
`[1, 2]` validates against the descriptor with fields `0` and `1`, because
only own-key containment in both directions and fieldwise validation are
tested. -/
theorem C8_counterexample :
    validate (.num 5) (.obj []) = some true := by
  simp [validate, jsHasKey, alookup, getFieldD, optAll, jsKeys, jsHasOwn,
    List.attach]

/-- Helper: a failed key-presence test means the lookup misses. -/
theorem hasKeyS_eq_false {β : Type} {l : List (String × β)} {k : String}
    (h : hasKeyS l k = false) : alookup l k = none := by
  rw [hasKeyS] at h
  cases hl : alookup l k with
  | none => rfl
  | some v => rw [hl] at h; simp at h

/-- C8 (amended): for a FixedObject descriptor (a plain-object descriptor
without a `$c` field) and a plain-object value without duplicate keys,
validation succeeds exactly when the two key sets contain each other and
every field of the value validates against the descriptor field of the same
name.  The code does not additionally require the value to be an
associative structure — see the counterexample, where a bare number passes
against the empty FixedObject descriptor. -/
theorem C8_fixed_object_amended (vf tf : List (String × JsValue))
    (hnd : (vf.map Prod.fst).Nodup) (hc : jsHasKey tf "$c" = false) :
    validate (.obj vf) (.obj tf) = some true ↔
      ((∀ k ∈ tf.map Prod.fst, k ∈ vf.map Prod.fst)
        ∧ (∀ k ∈ vf.map Prod.fst, k ∈ tf.map Prod.fst)
        ∧ ∀ p ∈ vf, validate p.2 (getFieldD tf p.1) = some true) := by
  have h2 : optAll (tf.map Prod.fst) (fun k => jsHasOwn (JsValue.obj vf) k)
      = some ((tf.map Prod.fst).all (fun k => jsHasKey vf k)) :=
    optAll_of_forall_some _ _ _ (fun x _ => rfl)
  rw [validate]
  simp only [hc, Bool.false_eq_true, dite_false]
  rw [h2]
  cases hb1 : (tf.map Prod.fst).all (fun k => jsHasKey vf k) with
  | false =>
    simp only [Option.some.injEq, Bool.false_eq_true, false_iff]
    rintro ⟨ha, -, -⟩
    have hx : (tf.map Prod.fst).all (fun k => jsHasKey vf k) = true :=
      List.all_eq_true.mpr (fun k hk => jsHasKey_iff_mem.mpr (ha k hk))
    rw [hb1] at hx
    exact absurd hx (by simp)
  | true =>
    simp only [jsKeys]
    cases hb2 : (vf.map Prod.fst).all (fun k => jsHasKey tf k) with
    | false =>
      simp only [hb2, Bool.false_eq_true, dite_false, Option.some.injEq,
        false_iff]
      rintro ⟨-, hb, -⟩
      have hx : (vf.map Prod.fst).all (fun k => jsHasKey tf k) = true :=
        List.all_eq_true.mpr (fun k hk => jsHasKey_iff_mem.mpr (hb k hk))
      rw [hb2] at hx
      exact absurd hx (by simp)
    | true =>
      simp only [hb2, dite_true]
      have hget : ∀ p ∈ vf, jsGet (JsValue.obj vf) p.1 = p.2 := by
        intro p hp
        show getFieldD vf p.1 = p.2
        rw [getFieldD, alookup_of_mem_nodup hnd hp]
        rfl
      rw [optAll_attach (vf.map Prod.fst)
        (fun k => validate (jsGet (JsValue.obj vf) k) (getFieldD tf k))]
      rw [optAll_eq_true_iff]
      constructor
      · intro hl
        refine ⟨fun k hk => jsHasKey_iff_mem.mp (List.all_eq_true.mp hb1 k hk),
          fun k hk => jsHasKey_iff_mem.mp (List.all_eq_true.mp hb2 k hk), ?_⟩
        intro p hp
        have hk : p.1 ∈ vf.map Prod.fst := List.mem_map.mpr ⟨p, hp, rfl⟩
        have h5 := hl p.1 hk
        rwa [hget p hp] at h5
      · rintro ⟨-, -, h3⟩ k hk
        obtain ⟨p, hp, rfl⟩ := List.mem_map.mp hk
        have h5 := h3 p hp
        rwa [hget p hp]

/-- Witness for the amended C8 at concrete one-field structures. -/
theorem C8_witness :
    validate (.obj [("a", .num 1)]) (.obj [("a", .num 2)]) = some true := by
  refine (C8_fixed_object_amended [("a", .num 1)] [("a", .num 2)]
      (by simp) (by simp [jsHasKey, alookup])).mpr ⟨?_, ?_, ?_⟩
  · intro k hk
    simpa using hk
  · intro k hk
    simpa using hk
  · intro p hp
    simp only [List.mem_singleton] at hp
    subst hp
    simp [validate, getFieldD, alookup, JsValue.isNumber]

/-- C1: the spec states that a call to a name with no remote handle first
emits an `expect` message naming the function and only then suspends, so in
every execution the `expect` precedes the processing of the corresponding
`publish`.  The code does the opposite: the caller is queued and suspends
with nothing sent (first two conjuncts), the `publish` message is processed
— installing the handle and releasing the waiter — while still no `expect`
has been emitted (third and fourth conjuncts), and only the resumed
continuation emits `expect`, after the handle already exists, followed by
the actual `call` (last conjunct). -/
theorem C1_expect_emitted_after_publish :
    (run [.callFn "add" [.num 1, .num 9]]).sent = []
    ∧ alookup (run [.callFn "add" [.num 1, .num 9]]).engine.expected "add"
        = some [0]
    ∧ (run [.callFn "add" [.num 1, .num 9],
        .recv (.publish "add" [.num 2, .num 2] (.num 2))]).sent = []
    ∧ (run [.callFn "add" [.num 1, .num 9],
        .recv (.publish "add" [.num 2, .num 2] (.num 2))]).releases = [0]
    ∧ (run [.callFn "add" [.num 1, .num 9],
        .recv (.publish "add" [.num 2, .num 2] (.num 2)),
        .resume 0]).sent
      = [.expect "add", .call 1 "add" [.num 1, .num 9]] :=
  ⟨rfl, rfl, rfl, rfl, rfl⟩

/-- C7 counterexample: after the first call to the unknown name and the
arrival of the `publish` message for it, the queued waiter has been
released and a remote handle exists, yet the expectation-table entry is
still present — the code never deletes it, refuting the claim that the
entry does not persist after draining. -/
theorem C7_counterexample :
    (run [.callFn "add" [], .recv (.publish "add" [] (.num 0))]).releases
        = [0]
    ∧ alookup (run [.callFn "add" [],
        .recv (.publish "add" [] (.num 0))]).engine.expected "add" = some [0]
    ∧ hasKeyS (run [.callFn "add" [],
        .recv (.publish "add" [] (.num 0))]).engine.remoteFunctions "add"
        = true :=
  ⟨rfl, rfl, rfl⟩

/-- C7 (amended): an expectation-queue entry is created by the first
unresolved call to an unknown name and extended in queueing order by later
ones; when a `publish` message for the name arrives, all queued waiters are
released in their original order and a remote handle is installed, but the
entry itself remains in the expectation table — it is only never consulted
again for that name, since a handle now exists. -/
theorem C7_expectation_queue (c : Config) (name : String)
    (args argsT : List JsValue) (rt : JsValue) :
    (hasKeyS c.engine.remoteFunctions name = false →
      hasKeyS c.engine.expected name = false →
        alookup (proxyCall c name args).engine.expected name
          = some [c.nextWid])
    ∧ (∀ q, hasKeyS c.engine.remoteFunctions name = false →
        alookup c.engine.expected name = some q →
          alookup (proxyCall c name args).engine.expected name
            = some (q ++ [c.nextWid]))
    ∧ (∀ q, hasKeyS c.engine.remoteFunctions name = false →
        alookup c.engine.expected name = some q →
          (dispatch c (.publish name argsT rt)).releases = c.releases ++ q
          ∧ (dispatch c (.publish name argsT rt)).engine.expected
              = c.engine.expected
          ∧ alookup
              (dispatch c (.publish name argsT rt)).engine.remoteFunctions
              name = some (.active rt)) := by
  refine ⟨?_, ?_, ?_⟩
  · intro hr he
    simp only [proxyCall, hr, Bool.false_eq_true, if_false, he]
    rw [alookup_append_of_none _ (hasKeyS_eq_false he), alookup, if_pos rfl]
  · intro q hr he
    have he2 : hasKeyS c.engine.expected name = true := by
      rw [hasKeyS, he]
      rfl
    simp only [proxyCall, hr, Bool.false_eq_true, if_false, he2, if_true]
    rw [alookup_map_update c.engine.expected name (fun x => x ++ [c.nextWid]),
      he]
    rfl
  · intro q hr he
    refine ⟨?_, ?_, ?_⟩
    · simp [dispatch, hr, he]
    · simp [dispatch, hr, he]
    · simp only [dispatch, hr, Bool.false_eq_true, if_false, he]
      rw [alookup_append_of_none _ (hasKeyS_eq_false hr), alookup, if_pos rfl]

/-- Witness for C7 at the initial configuration. -/
theorem C7_witness :
    alookup (proxyCall initConfig "add" []).engine.expected "add" = some [0] :=
  (C7_expectation_queue initConfig "add" [] [] (.num 0)).1 rfl rfl

/-- C2: firing the close handler marks the engine not-open, fails every
pending in-flight call with "Connection Closed" leaving the table empty,
makes `result`/`error` messages processed afterwards settle nothing, and
suppresses the `result` of a local implementation that finishes after the
close. -/
theorem C2_close (c : Config) :
    (closeChannel c).engine.opn = false
    ∧ (closeChannel c).engine.inFlight = []
    ∧ (closeChannel c).settled = c.settled ++
        c.engine.inFlight.map
          (fun p => (p.1, Outcome.failed "Connection Closed"))
    ∧ (∀ n v, (dispatch (closeChannel c) (.result n v)).settled
        = (closeChannel c).settled)
    ∧ (∀ n msg, (dispatch (closeChannel c) (.error n msg)).settled
        = (closeChannel c).settled)
    ∧ (∀ n v, nlookup (closeChannel c).tasks n = some (.ok v) →
        (finishTask (closeChannel c) n).sent = (closeChannel c).sent) := by
  refine ⟨rfl, rfl, rfl, ?_, ?_, ?_⟩
  · intro n v
    simp [dispatch, closeChannel, nlookup]
  · intro n msg
    simp [dispatch, closeChannel, nlookup]
  · intro n v h
    rw [show (closeChannel c).tasks = c.tasks from rfl] at h
    simp [finishTask, h, closeChannel]

/-- Configuration with one pending call and one running local task, used to
witness C2. -/
def C2_sample : Config :=
  ⟨⟨true, 5, [("g", .active (.num 2))], [(3, ⟨"g", .num 2⟩)], [], []⟩,
    [], [], [], [], [(9, .ok .null)], 0, []⟩

/-- Witness for C2 on a channel with one pending call and a running task. -/
theorem C2_witness :
    (closeChannel C2_sample).settled = C2_sample.settled ++
        C2_sample.engine.inFlight.map
          (fun p => (p.1, Outcome.failed "Connection Closed"))
    ∧ (finishTask (closeChannel C2_sample) 9).sent
        = (closeChannel C2_sample).sent :=
  ⟨(C2_close C2_sample).2.2.1,
    (C2_close C2_sample).2.2.2.2.2 9 JsValue.null rfl⟩

/-- C5: an inbound `call` for a name that is published locally but whose
arguments fail validation against the published argument types is answered
with `error(nonce, "Invalid Arguments")` and no local task is started; a
`call` for a name not published locally is answered with
`error(nonce, "Unpublished Function: name")` and likewise starts nothing. -/
theorem C5_call_dispatch (c : Config) (nonce : Nat) (name : String)
    (args : List JsValue) :
    (alookup c.engine.published name = none →
      (dispatch c (.call nonce name args)).sent
          = c.sent ++ [.error nonce ("Unpublished Function: " ++ name)]
        ∧ (dispatch c (.call nonce name args)).tasks = c.tasks)
    ∧ (∀ lfd, alookup c.engine.published name = some lfd →
        validate (.arr args) (.arr lfd.args) = some false →
          (dispatch c (.call nonce name args)).sent
              = c.sent ++ [.error nonce "Invalid Arguments"]
            ∧ (dispatch c (.call nonce name args)).tasks = c.tasks) := by
  constructor
  · intro h
    constructor <;> simp [dispatch, h]
  · intro lfd h hv
    constructor <;> simp [dispatch, h, hv]

/-- A published zero-argument local function, used to witness C5. -/
def C5_lfd : Lfd := ⟨"f0", [], .null, fun _ => .ok .null⟩

/-- Configuration publishing `C5_lfd`, used to witness C5. -/
def C5_sample : Config :=
  ⟨⟨true, 1, [], [], [("f0", C5_lfd)], []⟩, [], [], [], [], [], 0, []⟩

/-- Witness for C5: calling an unpublished name, and calling the published
zero-argument function with one argument. -/
theorem C5_witness :
    (dispatch C5_sample (.call 4 "nope" [])).sent
        = C5_sample.sent ++ [.error 4 ("Unpublished Function: " ++ "nope")]
    ∧ (dispatch C5_sample (.call 5 "f0" [.num 1])).sent
        = C5_sample.sent ++ [.error 5 "Invalid Arguments"] :=
  ⟨((C5_call_dispatch C5_sample 4 "nope" []).1 rfl).1,
    ((C5_call_dispatch C5_sample 5 "f0" [.num 1]).2 C5_lfd rfl
      (by simp [validate, C5_lfd])).1⟩

/-- C6: a `result` message whose nonce has an in-flight record validates
the value against the recorded return type — on failure the deferred result
fails with "invalid return value from rpc name" and nothing is sent back to
the executing side, on success it resolves with the value; the record is
removed either way.  Without a record, nothing settles. -/
theorem C6_result_dispatch (c : Config) (nonce : Nat) (v : JsValue) :
    (∀ r, nlookup c.engine.inFlight nonce = some r →
      validate v r.returns = some false →
        (dispatch c (.result nonce v)).settled = c.settled ++
            [(nonce,
              Outcome.failed ("invalid return value from rpc " ++ r.name))]
        ∧ (dispatch c (.result nonce v)).sent = c.sent
        ∧ nlookup (dispatch c (.result nonce v)).engine.inFlight nonce = none)
    ∧ (∀ r, nlookup c.engine.inFlight nonce = some r →
        validate v r.returns = some true →
          (dispatch c (.result nonce v)).settled
              = c.settled ++ [(nonce, Outcome.resolved v)]
          ∧ (dispatch c (.result nonce v)).sent = c.sent
          ∧ nlookup (dispatch c (.result nonce v)).engine.inFlight nonce
              = none)
    ∧ (nlookup c.engine.inFlight nonce = none →
        (dispatch c (.result nonce v)).settled = c.settled) := by
  refine ⟨?_, ?_, ?_⟩
  · intro r h hv
    refine ⟨by simp [dispatch, h, hv], by simp [dispatch, h, hv], ?_⟩
    simp [dispatch, h, hv, nlookup_aremove_self]
  · intro r h hv
    refine ⟨by simp [dispatch, h, hv], by simp [dispatch, h, hv], ?_⟩
    simp [dispatch, h, hv, nlookup_aremove_self]
  · intro h
    simp [dispatch, h]

/-- Configuration with one in-flight call expecting a string, used to
witness C6. -/
def C6_sample : Config :=
  ⟨⟨true, 5, [], [(3, ⟨"g", .num 1⟩)], [], []⟩, [], [], [], [], [], 0, []⟩

/-- Witness for C6: a number arriving for a call recorded with the String
return type fails the caller with the invalid-return message. -/
theorem C6_witness :
    (dispatch C6_sample (.result 3 (.num 7))).settled
      = C6_sample.settled ++
          [(3, Outcome.failed ("invalid return value from rpc " ++ "g"))] :=
  (((C6_result_dispatch C6_sample 3 (.num 7)).1 ⟨"g", .num 1⟩ rfl
    (by simp [validate, JsValue.isString]))).1

/-- C9: publishing a definition whose name is already published throws
synchronously into the calling context and leaves the engine state and the
wire untouched; publishing a fresh name records the definition and
immediately emits the `publish` wire message carrying the name, the
argument types and the return type. -/
theorem C9_publish (c : Config) (lfd : Lfd) :
    (hasKeyS c.engine.published lfd.name = true →
      (publishFunction c lfd).engine = c.engine
      ∧ (publishFunction c lfd).sent = c.sent
      ∧ (publishFunction c lfd).thrown = c.thrown ++
          ["channel already has a published function called " ++ lfd.name])
    ∧ (hasKeyS c.engine.published lfd.name = false →
      (publishFunction c lfd).sent
          = c.sent ++ [.publish lfd.name lfd.args lfd.returns]
      ∧ alookup (publishFunction c lfd).engine.published lfd.name = some lfd
      ∧ (publishFunction c lfd).thrown = c.thrown) := by
  constructor
  · intro h
    exact ⟨by simp [publishFunction, h], by simp [publishFunction, h],
      by simp [publishFunction, h]⟩
  · intro h
    refine ⟨by simp [publishFunction, h, sendFunctionMsg], ?_,
      by simp [publishFunction, h]⟩
    simp only [publishFunction, h, Bool.false_eq_true, if_false]
    rw [alookup_append_of_none _ (hasKeyS_eq_false h), alookup, if_pos rfl]

/-- A local function definition, used to witness C9. -/
def C9_lfd : Lfd := ⟨"h0", [.num 1], .num 2, fun _ => .ok .null⟩

/-- Witness for C9: first publication emits the wire message; republishing
the same name throws and records the error text. -/
theorem C9_witness :
    (publishFunction initConfig C9_lfd).sent
        = initConfig.sent ++ [.publish "h0" [.num 1] (.num 2)]
    ∧ (publishFunction (publishFunction initConfig C9_lfd) C9_lfd).thrown
        = (publishFunction initConfig C9_lfd).thrown ++
            ["channel already has a published function called " ++ "h0"] :=
  ⟨((C9_publish initConfig C9_lfd).2 rfl).1,
    ((C9_publish (publishFunction initConfig C9_lfd) C9_lfd).1 rfl).2.2⟩

/-- C4: across any event sequence, the nonces of the emitted `call`
messages are exactly `1, 2, …` in order — the counter starts at 1,
strictly increases and never reuses a nonce — and a `result` or `error`
message carrying nonce `n` settles exactly the pending call recorded under
`n` (failed or resolved according to the return-type check), removing that
record and leaving every other pending call untouched. -/
theorem C4_nonce_correlation (evs : List Event) :
    (callNonces (run evs).sent
        = List.range' 1 (callNonces (run evs).sent).length
      ∧ (callNonces (run evs).sent).Nodup)
    ∧ (∀ n r v b, nlookup (run evs).engine.inFlight n = some r →
        validate v r.returns = some b →
          (dispatch (run evs) (.result n v)).settled
              = (run evs).settled ++ [(n,
                  if b then Outcome.resolved v
                  else Outcome.failed
                    ("invalid return value from rpc " ++ r.name))]
          ∧ nlookup (dispatch (run evs) (.result n v)).engine.inFlight n
              = none
          ∧ ∀ m, m ≠ n →
              nlookup (dispatch (run evs) (.result n v)).engine.inFlight m
                = nlookup (run evs).engine.inFlight m)
    ∧ (∀ n r msg, nlookup (run evs).engine.inFlight n = some r →
        (dispatch (run evs) (.error n msg)).settled
            = (run evs).settled ++ [(n, Outcome.failed msg)]
          ∧ nlookup (dispatch (run evs) (.error n msg)).engine.inFlight n
              = none
          ∧ ∀ m, m ≠ n →
              nlookup (dispatch (run evs) (.error n msg)).engine.inFlight m
                = nlookup (run evs).engine.inFlight m) := by
  obtain ⟨h1, h2⟩ := inv_run evs
  refine ⟨⟨?_, ?_⟩, ?_, ?_⟩
  · rw [h2, List.length_range']
  · rw [h2]
    exact List.nodup_range' _ _
  · intro n r v b h hv
    cases b
    · refine ⟨by simp [dispatch, h, hv], ?_, ?_⟩
      · simp [dispatch, h, hv, nlookup_aremove_self]
      · intro m hm
        simp [dispatch, h, hv, nlookup_aremove_ne _ _ _ hm]
    · refine ⟨by simp [dispatch, h, hv], ?_, ?_⟩
      · simp [dispatch, h, hv, nlookup_aremove_self]
      · intro m hm
        simp [dispatch, h, hv, nlookup_aremove_ne _ _ _ hm]
  · intro n r msg h
    refine ⟨by simp [dispatch, h], ?_, ?_⟩
    · simp [dispatch, h, nlookup_aremove_self]
    · intro m hm
      simp [dispatch, h, nlookup_aremove_ne _ _ _ hm]

/-- Witness for C4: after publishing and one outbound call, the result for
nonce 1 resolves exactly that call. -/
theorem C4_witness :
    (dispatch (run [.recv (.publish "f" [] (.num 2)), .callFn "f" [.num 3]])
        (.result 1 (.num 7))).settled
      = (run [.recv (.publish "f" [] (.num 2)),
          .callFn "f" [.num 3]]).settled
          ++ [(1, Outcome.resolved (.num 7))] := by
  have h := ((C4_nonce_correlation [.recv (.publish "f" [] (.num 2)),
      .callFn "f" [.num 3]]).2.1 1 ⟨"f", .num 2⟩ (.num 7) true rfl
      (by simp [validate, JsValue.isNumber])).1
  simpa using h

end Lwrpc
